import Mathlib

/-!
Verification of the hybrid-retrieval query pipeline of the Neo4j PDF RAG
backend (`server.js`).  The JavaScript source is shallowly embedded:

* numbers computed by the JavaScript code are modelled as exact reals (ℝ)
  where square roots / logarithms occur (cosine similarity, BM25), and as
  exact rationals (ℚ) where the source only performs field arithmetic
  (metrics, evaluation scores);
* external collaborators (the Gemini generation and embedding services, the
  `ml-distance` cosine call) are oracle parameters: `Option` results model
  calls that may throw;
* the JavaScript `NaN` produced by a `0 / 0` division is modelled by
  `Option.none` where it matters (the evaluator's Jaccard similarity);
* stateful objects (`RAGMetrics`) become explicit state-passing functions.
-/

/-! ## Base64 and the query-endpoint cache key

`server.js` builds the cache key of the `/query` endpoint as
`'query_' + Buffer.from(question).toString('base64')`: the standard base64
encoding (alphabet `A–Z a–z 0–9 + /`, `=` padding) of the UTF-8 bytes of the
question.  `maxResults` and `includeMetadata` do not enter the key.
Bytes are modelled as natural numbers `< 256`. -/

def b64Alphabet : List Char :=
  "ABCDEFGHIJKLMNOPQRSTUVWXYZabcdefghijklmnopqrstuvwxyz0123456789+/".toList

def b64Char (n : Nat) : Char := b64Alphabet.getD n '?'

/-- Position of a character in a list (first occurrence; length if absent). -/
def listIdx (c : Char) : List Char → Nat
  | [] => 0
  | x :: xs => if x = c then 0 else listIdx c xs + 1

def b64Index (c : Char) : Nat := listIdx c b64Alphabet

/-- Standard base64 encoding of a byte sequence, as produced by Node's
`Buffer.toString('base64')`: groups of 3 bytes become 4 alphabet characters,
a final group of 1 or 2 bytes is padded with `=`. -/
def base64Encode : List Nat → List Char
  | [] => []
  | [b1] => [b64Char (b1 / 4), b64Char (b1 % 4 * 16), '=', '=']
  | [b1, b2] => [b64Char (b1 / 4), b64Char (b1 % 4 * 16 + b2 / 16),
      b64Char (b2 % 16 * 4), '=']
  | b1 :: b2 :: b3 :: rest =>
      b64Char (b1 / 4) :: b64Char (b1 % 4 * 16 + b2 / 16) ::
      b64Char (b2 % 16 * 4 + b3 / 64) :: b64Char (b3 % 64) :: base64Encode rest

/-- Decoder for one base64 group of four characters (inverse of one
`base64Encode` step; used only to prove the encoder injective). -/
def b64DecodeGroup (c1 c2 c3 c4 : Char) : List Nat :=
  if c3 = '=' then [b64Index c1 * 4 + b64Index c2 / 16]
  else if c4 = '=' then
    [b64Index c1 * 4 + b64Index c2 / 16, b64Index c2 % 16 * 16 + b64Index c3 / 4]
  else
    [b64Index c1 * 4 + b64Index c2 / 16, b64Index c2 % 16 * 16 + b64Index c3 / 4,
     b64Index c3 % 4 * 64 + b64Index c4]

def base64Decode : List Char → List Nat
  | c1 :: c2 :: c3 :: c4 :: rest => b64DecodeGroup c1 c2 c3 c4 ++ base64Decode rest
  | _ => []

theorem b64Index_b64Char : ∀ n < 64, b64Index (b64Char n) = n := by decide

theorem b64Char_ne_eq : ∀ n < 64, b64Char n ≠ '=' := by decide

theorem base64Decode_encode :
    ∀ l : List Nat, (∀ b ∈ l, b < 256) → base64Decode (base64Encode l) = l := by
  intro l
  induction l using base64Encode.induct with
  | case1 =>
      intro _; rfl
  | case2 b1 =>
      intro hb
      have h1 : b1 < 256 := hb b1 (by simp)
      simp only [base64Encode, base64Decode, b64DecodeGroup, if_pos, List.append_nil]
      rw [b64Index_b64Char _ (by omega : b1 / 4 < 64),
          b64Index_b64Char _ (by omega : b1 % 4 * 16 < 64)]
      congr 1
      omega
  | case3 b1 b2 =>
      intro hb
      have h1 : b1 < 256 := hb b1 (by simp)
      have h2 : b2 < 256 := hb b2 (by simp)
      have hc3 : b64Char (b2 % 16 * 4) ≠ '=' := b64Char_ne_eq _ (by omega)
      simp only [base64Encode, base64Decode, b64DecodeGroup, if_neg hc3, if_pos,
        List.append_nil]
      rw [b64Index_b64Char _ (by omega : b1 / 4 < 64),
          b64Index_b64Char _ (by omega : b1 % 4 * 16 + b2 / 16 < 64),
          b64Index_b64Char _ (by omega : b2 % 16 * 4 < 64)]
      congr 1
      · omega
      · congr 1
        omega
  | case4 b1 b2 b3 rest ih =>
      intro hb
      have h1 : b1 < 256 := hb b1 (by simp)
      have h2 : b2 < 256 := hb b2 (by simp)
      have h3 : b3 < 256 := hb b3 (by simp)
      have hrest : ∀ b ∈ rest, b < 256 := fun b hbb => hb b (by simp [hbb])
      have hc3 : b64Char (b2 % 16 * 4 + b3 / 64) ≠ '=' := b64Char_ne_eq _ (by omega)
      have hc4 : b64Char (b3 % 64) ≠ '=' := b64Char_ne_eq _ (by omega)
      show b64DecodeGroup _ _ _ _ ++ base64Decode (base64Encode rest) = _
      rw [ih hrest]
      simp only [b64DecodeGroup, if_neg hc3, if_neg hc4]
      rw [b64Index_b64Char _ (by omega : b1 / 4 < 64),
          b64Index_b64Char _ (by omega : b1 % 4 * 16 + b2 / 16 < 64),
          b64Index_b64Char _ (by omega : b2 % 16 * 4 + b3 / 64 < 64),
          b64Index_b64Char _ (by omega : b3 % 64 < 64)]
      simp only [List.cons_append, List.nil_append, List.cons.injEq]
      refine ⟨by omega, by omega, by omega, trivial⟩

theorem base64Encode_injOn {l1 l2 : List Nat} (h1 : ∀ b ∈ l1, b < 256)
    (h2 : ∀ b ∈ l2, b < 256) (he : base64Encode l1 = base64Encode l2) :
    l1 = l2 := by
  have := congrArg base64Decode he
  rwa [base64Decode_encode l1 h1, base64Decode_encode l2 h2] at this

/-- Embedding of `const cacheKey = 'query_' + Buffer.from(question).toString('base64')`
from the `/query` endpoint, at the level of the question's byte sequence. -/
def cacheKeyBytes (questionBytes : List Nat) : List Char :=
  "query_".toList ++ base64Encode questionBytes

/-- The cache key the `/query` endpoint computes for a request
`(question, maxResults, includeMetadata)`: the source derives it from the
question alone, the two request parameters are not consulted. -/
def requestCacheKey (questionBytes : List Nat) (_maxResults : Nat)
    (_includeMetadata : Bool) : List Char :=
  cacheKeyBytes questionBytes

/-! ## Tokenization

`server.js` tokenizes with `natural.WordTokenizer` (words = maximal runs of
`\w` characters, i.e. letters, digits and underscore) and extracts evaluator
terms with `compromise(text).terms().out('array')`, modelled as maximal runs
of non-whitespace characters. -/

/-- Maximal runs of characters satisfying `p`; `acc` holds the (reversed)
current run. -/
def runsAux (p : Char → Bool) : List Char → List Char → List (List Char)
  | [], acc => if acc.isEmpty then [] else [acc.reverse]
  | c :: cs, acc =>
      if p c then runsAux p cs (c :: acc)
      else if acc.isEmpty then runsAux p cs []
      else acc.reverse :: runsAux p cs []

def isWordChar (c : Char) : Bool := c.isAlpha || c.isDigit || c == '_'

/-- `s.toLowerCase()` (character-wise lowering). -/
def jsToLower (s : String) : String := (s.toList.map Char.toLower).asString

/-- Embedding of `new natural.WordTokenizer().tokenize(s)`. -/
def wordTokenize (s : String) : List String :=
  (runsAux isWordChar s.toList []).map List.asString

/-- Embedding of `compromise(s).terms().out('array')`: the term texts of the
input, whitespace-delimited. -/
def compromiseTerms (s : String) : List String :=
  (runsAux (fun c => !c.isWhitespace) s.toList []).map List.asString

/-- Simplified model of `natural.SentenceTokenizer.tokenize`: sentences are
maximal runs not containing a terminator character. -/
def sentenceTokenize (s : String) : List String :=
  (runsAux (fun c => !(c == '.' || c == '!' || c == '?')) s.toList []).map List.asString

/-! ## ScoringEngine: cosine similarity and BM25

`cosineSimilarity(vec1, vec2)` guards against absent vectors and mismatched
lengths, then tries `1 - cosine(vec1, vec2)` (the destructured `ml-distance`
import); if that call throws it falls back to the manual
dot-product / magnitudes computation.  The external call is an oracle
`mlCos`; `none` models a throw.  JavaScript numbers are modelled as exact
reals. -/

def dotProduct (v1 v2 : List ℝ) : ℝ := (List.zipWith (fun a b => a * b) v1 v2).sum

def sumSq (v : List ℝ) : ℝ := (v.map (fun a => a * a)).sum

noncomputable def cosineSimilarity (mlCos : List ℝ → List ℝ → Option ℝ)
    (vec1 vec2 : Option (List ℝ)) : ℝ :=
  match vec1, vec2 with
  | none, _ => 0
  | _, none => 0
  | some v1, some v2 =>
    if v1.length ≠ v2.length then 0
    else
      match mlCos v1 v2 with
      | some c => 1 - c
      | none =>
        let dot := dotProduct v1 v2
        let magnitude1 := Real.sqrt (sumSq v1)
        let magnitude2 := Real.sqrt (sumSq v2)
        if magnitude1 = 0 ∨ magnitude2 = 0 then 0
        else dot / (magnitude1 * magnitude2)

/-- `sub` is a prefix of the second character list. -/
def charsPrefix : List Char → List Char → Bool
  | [], _ => true
  | _ :: _, [] => false
  | a :: as, b :: bs => a == b && charsPrefix as bs

/-- `sub` occurs as a contiguous run inside the character list. -/
def charsInfix (sub : List Char) : List Char → Bool
  | [] => charsPrefix sub []
  | c :: cs => charsPrefix sub (c :: cs) || charsInfix sub cs

/-- `doc.toLowerCase().includes(term)` of `calculateBM25Score`. -/
def containsSubstring (s sub : String) : Bool := charsInfix sub.toList s.toList

/-- `const docFreq = corpus.filter(doc => doc.toLowerCase().includes(term)).length`. -/
def bm25DocFreq (corpus : List String) (term : String) : Nat :=
  (corpus.filter (fun d => containsSubstring (jsToLower d) term)).length

/-- The body of the `queryTokens.forEach` accumulation of
`calculateBM25Score`: a term with positive document frequency adds
`idf * tf` to the running score, a term with zero document frequency is
skipped (so no division by zero in the IDF). -/
noncomputable def bm25TermStep (docTokens : List String) (corpus : List String)
    (avgDocLength : ℝ) (score : ℝ) (term : String) : ℝ :=
  let k1 : ℝ := 1.2
  let b : ℝ := 0.75
  let termFreq : ℝ := ((docTokens.filter (fun t => t == term)).length : ℝ)
  let docFreq : Nat := bm25DocFreq corpus term
  if 0 < docFreq then
    let idf := Real.log (((corpus.length : ℝ) - (docFreq : ℝ) + 0.5) / ((docFreq : ℝ) + 0.5))
    let tf := (termFreq * (k1 + 1)) /
      (termFreq + k1 * (1 - b + b * ((docTokens.length : ℝ) / avgDocLength)))
    score + idf * tf
  else score

/-- Embedding of `calculateBM25Score(query, document, corpus)`:
`k1 = 1.2`, `b = 0.75`, `avgDocLength` is the mean character length of the
corpus entries, term frequency counts exact token matches in the document,
document frequency counts corpus entries containing the term as a
substring. -/
noncomputable def calculateBM25Score (query document : String)
    (corpus : List String) : ℝ :=
  let queryTokens := wordTokenize (jsToLower query)
  let docTokens := wordTokenize (jsToLower document)
  let avgDocLength : ℝ := ((corpus.map (fun d => (d.length : ℝ))).sum) / (corpus.length : ℝ)
  queryTokens.foldl (bm25TermStep docTokens corpus avgDocLength) 0

/-! ## Evaluator (`RAGEvaluator`)

Scores are ratios of natural numbers, modelled in ℚ.  JavaScript's `0 / 0`
(`NaN`) in `calculateSemanticSimilarity` is modelled by `none`; the `> 0.5`
and `> 0.3` comparisons are false on `NaN`, i.e. on `none`. -/

/-- Embedding of `RAGEvaluator.calculateSemanticSimilarity`: Jaccard
similarity `intersection.size / union.size` of the term sets of the two
texts; `none` models the `NaN` produced when both term sets are empty. -/
def calculateSemanticSimilarity (text1 text2 : String) : Option ℚ :=
  let terms1 := (compromiseTerms text1).toFinset
  let terms2 := (compromiseTerms text2).toFinset
  let intersection := terms1 ∩ terms2
  let union := terms1 ∪ terms2
  if union.card = 0 then none
  else some ((intersection.card : ℚ) / (union.card : ℚ))

/-- Embedding of `RAGEvaluator.calculateAnswerRelevance`. -/
def calculateAnswerRelevance (question answer : String) : Option ℚ :=
  calculateSemanticSimilarity question answer

/-- JavaScript `x > t` where `x` may be `NaN` (modelled `none`). -/
def simGt (x : Option ℚ) (t : ℚ) : Bool :=
  match x with
  | none => false
  | some v => decide (t < v)

/-! ## Chunks and scored candidates -/

/-- A `Chunk` node as read back by the `/query` endpoint (all retrieved
chunks have a non-null embedding). -/
structure Chunk where
  id : String
  content : String
  embedding : List ℝ
  docId : String
  chunkIndex : Nat

/-- Embedding of `RAGEvaluator.calculateContextPrecision`: the fraction of
retrieved chunks whose content has Jaccard similarity above `0.5` with some
chunk of the reference set; `0` for an empty retrieved set. -/
def calculateContextPrecision (retrievedChunks relevantChunks : List Chunk) : ℚ :=
  if retrievedChunks.length = 0 then 0
  else
    let relevant := (retrievedChunks.filter (fun chunk =>
      relevantChunks.any (fun rel =>
        simGt (calculateSemanticSimilarity chunk.content rel.content) (1/2)))).length
    (relevant : ℚ) / (retrievedChunks.length : ℚ)

/-- Embedding of `RAGEvaluator.calculateFaithfulness`. -/
def calculateFaithfulness (answer context : String) : ℚ :=
  let answerSentences := sentenceTokenize answer
  if answerSentences.length = 0 then 1
  else
    ((answerSentences.filter (fun sentence =>
      simGt (calculateSemanticSimilarity sentence context) (3/10))).length : ℚ) /
      (answerSentences.length : ℚ)

structure RAGEvaluation where
  answerRelevance : Option ℚ
  contextPrecision : ℚ
  faithfulness : ℚ
deriving DecidableEq

/-- Embedding of `RAGEvaluator.evaluateRAGResponse`; the fourth argument
defaults to `[]` exactly as `relevantChunks = []` does in the source. -/
def evaluateRAGResponse (question answer : String) (retrievedChunks : List Chunk)
    (relevantChunks : List Chunk := []) : RAGEvaluation :=
  let context := String.intercalate "\n" (retrievedChunks.map (fun c => c.content))
  { answerRelevance := calculateAnswerRelevance question answer
    contextPrecision := calculateContextPrecision retrievedChunks relevantChunks
    faithfulness := calculateFaithfulness answer context }

/-! ## QueryExpander (`generateMultipleQueries`)

The external `generationModel.generateContent` call is the oracle argument
`genResult : Option String`; `none` models a throw (including a throw from
`response.text()`), which the source catches, logs, and absorbs by
returning `[originalQuery]`. -/

/-- `line.replace(/^\d+\.\s*/, '')`: strip one leading run of digits
followed by a dot and optional whitespace, if present. -/
def stripLeadingEnumeration (l : List Char) : List Char :=
  if (l.takeWhile Char.isDigit).isEmpty then l
  else
    match l.dropWhile Char.isDigit with
    | '.' :: rest => rest.dropWhile Char.isWhitespace
    | _ => l

/-- Parsing of the generated text: split on line breaks, drop blank lines,
strip enumeration markers and trim, keep at most `numQueries` lines. -/
def parseGeneratedQueries (generatedText : String) (numQueries : Nat) : List String :=
  (((generatedText.splitOn "\n").filter (fun line => !(line.trim == ""))).map
    (fun line => ((stripLeadingEnumeration line.toList).asString).trim)).take numQueries

/-- Embedding of `generateMultipleQueries(originalQuery, numQueries)`. -/
def generateMultipleQueries (genResult : Option String) (originalQuery : String)
    (numQueries : Nat := 3) : List String :=
  match genResult with
  | some generatedText => originalQuery :: parseGeneratedQueries generatedText numQueries
  | none => [originalQuery]

/-! ## RetrievalRanker (the hybrid-retrieval part of the `/query` endpoint)

The embedding service (`embeddingModel.embedContent`) is the oracle
`embed : String → List ℝ`. -/

structure ScoredCandidate where
  chunk : Chunk
  vectorScore : ℝ
  bm25Score : ℝ
  hybridScore : ℝ
  queryVariation : String

/-- One entry pushed onto `hybridResults` for a `(variation, chunk)` pair. -/
noncomputable def scoreCandidate (mlCos : List ℝ → List ℝ → Option ℝ)
    (embed : String → List ℝ) (corpus : List String) (queryVariation : String)
    (chunk : Chunk) : ScoredCandidate :=
  let queryVector := embed queryVariation
  let vectorScore := cosineSimilarity mlCos (some queryVector) (some chunk.embedding)
  let bm25Score := calculateBM25Score queryVariation chunk.content corpus
  { chunk := chunk
    vectorScore := vectorScore
    bm25Score := bm25Score
    hybridScore := 0.7 * vectorScore + 0.3 * bm25Score
    queryVariation := queryVariation }

/-- The full `hybridResults` array: for each query variation (outer loop),
for each chunk (inner loop), one scored candidate, with the BM25 corpus the
contents of all chunks. -/
noncomputable def hybridResults (mlCos : List ℝ → List ℝ → Option ℝ)
    (embed : String → List ℝ) (queryVariations : List String)
    (allChunks : List Chunk) : List ScoredCandidate :=
  let corpus := allChunks.map (fun c => c.content)
  queryVariations.flatMap (fun v => allChunks.map (scoreCandidate mlCos embed corpus v))

/-- One step of the `uniqueResults` deduplication: a JavaScript `Map` keyed
by `result.chunk.id`, where `set` on an existing key replaces the value in
place and a new key is appended; the stored candidate is replaced only when
its `hybridScore` is strictly smaller than the incoming one. -/
noncomputable def dedupeStep (m : List ScoredCandidate) (result : ScoredCandidate) :
    List ScoredCandidate :=
  match m.find? (fun c => c.chunk.id == result.chunk.id) with
  | none => m ++ [result]
  | some old =>
      if old.hybridScore < result.hybridScore then
        m.map (fun c => if c.chunk.id == result.chunk.id then result else c)
      else m

/-- `uniqueResults` as a list in `Map` insertion order. -/
noncomputable def uniqueResults (l : List ScoredCandidate) : List ScoredCandidate :=
  l.foldl dedupeStep []

/-- Comparator of `topResults`: `(a, b) => b.hybridScore - a.hybridScore`
sorts descending by `hybridScore`. -/
noncomputable def hybridLe (a b : ScoredCandidate) : Bool :=
  decide (b.hybridScore ≤ a.hybridScore)

/-- `topResults`: deduplicate, sort descending by hybrid score, truncate to
`maxResults`. -/
noncomputable def topResults (l : List ScoredCandidate) (maxResults : Nat) :
    List ScoredCandidate :=
  (((uniqueResults l).mergeSort hybridLe).take maxResults)

/-! ## MetricsTracker (`RAGMetrics`) -/

structure RAGMetricsState where
  totalQueries : Nat
  averageResponseTime : ℚ
  cacheHitRate : ℚ
  errorRate : ℚ
  averageRetrievalAccuracy : ℚ
deriving DecidableEq

def initialMetrics : RAGMetricsState :=
  { totalQueries := 0
    averageResponseTime := 0
    cacheHitRate := 0
    errorRate := 0
    averageRetrievalAccuracy := 0 }

/-- Embedding of `RAGMetrics.recordQuery(responseTime, cacheHit, error)`:
`totalQueries` is incremented first, then each running mean is updated with
the incremented count `n` and previous count `n - 1`. -/
def recordQuery (s : RAGMetricsState) (responseTime : ℚ) (cacheHit : Bool)
    (error : Bool) : RAGMetricsState :=
  let n : Nat := s.totalQueries + 1
  { totalQueries := n
    averageResponseTime := (s.averageResponseTime * ((n : ℚ) - 1) + responseTime) / (n : ℚ)
    cacheHitRate :=
      if cacheHit then (s.cacheHitRate * ((n : ℚ) - 1) + 1) / (n : ℚ)
      else s.cacheHitRate * ((n : ℚ) - 1) / (n : ℚ)
    errorRate :=
      if error then (s.errorRate * ((n : ℚ) - 1) + 1) / (n : ℚ)
      else s.errorRate * ((n : ℚ) - 1) / (n : ℚ)
    averageRetrievalAccuracy := s.averageRetrievalAccuracy }

/-- One recorded query: the arguments of one `recordQuery` call. -/
structure QueryRecord where
  responseTime : ℚ
  cacheHit : Bool
  error : Bool

/-- The metrics state after a sequence of `recordQuery` calls starting from
the freshly constructed `RAGMetrics`. -/
def runQueries (l : List QueryRecord) : RAGMetricsState :=
  l.foldl (fun s r => recordQuery s r.responseTime r.cacheHit r.error) initialMetrics

/-! ## The `/query` endpoint -/

/-- The cache key at the `String` level: `'query_' +
Buffer.from(question).toString('base64')` (UTF-8 bytes of the question). -/
def cacheKeyStr (question : String) : String :=
  (cacheKeyBytes (question.toUTF8.toList.map (fun b => b.toNat))).asString

/-- One element of the `sources` array of `finalResult`. -/
structure SourceEntry where
  content : String
  vectorScore : ℝ
  bm25Score : ℝ
  hybridScore : ℝ
  docId : String
  chunkIndex : Nat
  metadata : Option Chunk

/-- One element of the `sources` array of the final result: content
truncated to 200 characters plus `'...'`, the three scores, the chunk
identity, and the full chunk as `metadata` only when `includeMetadata`. -/
noncomputable def toSourceEntry (includeMetadata : Bool) (item : ScoredCandidate) :
    SourceEntry :=
  { content := (item.chunk.content.toList.take 200).asString ++ "..."
    vectorScore := item.vectorScore
    bm25Score := item.bm25Score
    hybridScore := item.hybridScore
    docId := item.chunk.docId
    chunkIndex := item.chunk.chunkIndex
    metadata := if includeMetadata then some item.chunk else none }

/-- A query result as held in the `NodeCache` (the fields of `finalResult`
that the claims are about). -/
structure CachedQueryResult where
  answer : String
  sources : List SourceEntry
  queryVariations : List String
  evaluation : RAGEvaluation

/-- Outcome of one `POST /query` request. -/
inductive QueryResponse where
  | badRequest (message : String)
  | ok (answer : String) (sources : List SourceEntry) (queryVariations : List String)
      (cached : Bool)
  | serverError (message : String)

/-- Joi validation of the request body: `question` is a string of length 3
to 500, `maxResults` an integer in `[1, 20]`. -/
def validRequest (question : String) (maxResults : Nat) : Prop :=
  3 ≤ question.length ∧ question.length ≤ 500 ∧ 1 ≤ maxResults ∧ maxResults ≤ 20

instance (question : String) (maxResults : Nat) :
    Decidable (validRequest question maxResults) := by
  unfold validRequest; infer_instance

/-- Embedding of the `POST /query` handler.  Oracles: `mlCos` for the
`ml-distance` cosine call, `embed` for `embeddingModel.embedContent`,
`expansionResult` for the `generateContent` call inside
`generateMultipleQueries`, `genAnswer` for the answer-generation
`generateContent` call (`none` models a throw), `cacheGet` for
`cache.get`.  `allChunks` is the corpus returned by the Neo4j `MATCH
(c:Chunk) WHERE c.embedding IS NOT NULL` query.  The second component
records whether the answer-generation call `genAnswer` was made. -/
noncomputable def processQuery (mlCos : List ℝ → List ℝ → Option ℝ)
    (embed : String → List ℝ) (expansionResult : Option String)
    (genAnswer : String → Option String)
    (cacheGet : String → Option CachedQueryResult)
    (question : String) (includeMetadata : Bool) (maxResults : Nat)
    (allChunks : List Chunk) : QueryResponse × Bool :=
  if ¬ validRequest question maxResults then
    (QueryResponse.badRequest "validation error", false)
  else
    match cacheGet (cacheKeyStr question) with
    | some cachedResult =>
        (QueryResponse.ok cachedResult.answer cachedResult.sources
          cachedResult.queryVariations true, false)
    | none =>
        let queryVariations := generateMultipleQueries expansionResult question 3
        if allChunks.isEmpty then
          (QueryResponse.ok
            "No documents have been uploaded yet. Please upload a PDF first."
            [] queryVariations false, false)
        else
          let results := topResults (hybridResults mlCos embed queryVariations allChunks)
            maxResults
          let context := String.intercalate "\n\n" (results.map (fun r => r.chunk.content))
          let prompt := "Context: " ++ context ++ "\n\nQuestion: " ++ question ++
            "\n\nPlease provide a comprehensive answer based on the context above. If the context doesn't contain enough information to answer the question, please say so."
          match genAnswer prompt with
          | none => (QueryResponse.serverError "Failed to process query", true)
          | some generatedText =>
              (QueryResponse.ok generatedText
                (results.map (toSourceEntry includeMetadata))
                queryVariations false, true)

/-! ## Claim C3: query expansion always yields the original question first -/

/-- C3: for every original question and every behaviour of the external
generation call, `generateMultipleQueries` returns a sequence whose first
element is the original question and whose length is at least 1; on failure
it returns exactly the singleton of the original question. -/
theorem generateMultipleQueries_spec (genResult : Option String)
    (originalQuery : String) (numQueries : Nat) :
    (generateMultipleQueries genResult originalQuery numQueries).head? = some originalQuery ∧
    1 ≤ (generateMultipleQueries genResult originalQuery numQueries).length ∧
    (genResult = none →
      generateMultipleQueries genResult originalQuery numQueries = [originalQuery]) := by
  cases genResult with
  | none => exact ⟨rfl, by simp [generateMultipleQueries], fun _ => rfl⟩
  | some t =>
      refine ⟨rfl, by simp [generateMultipleQueries], fun h => Option.noConfusion h⟩

/-- C3 witness: the guarantee at a concrete failing generation call. -/
theorem generateMultipleQueries_spec_witness :
    (generateMultipleQueries none "What is RAG?" 3).head? = some "What is RAG?" ∧
    1 ≤ (generateMultipleQueries none "What is RAG?" 3).length ∧
    ((none : Option String) = none →
      generateMultipleQueries none "What is RAG?" 3 = ["What is RAG?"]) :=
  generateMultipleQueries_spec none "What is RAG?" 3

/-! ## Claims C9 and C10: the metrics tracker -/

/-- Generic invariant-propagation along a `foldl`. -/
theorem foldl_inv {α : Type _} {β : Type _} (P : List α → β → Prop)
    (step : β → α → β)
    (hstep : ∀ p m a, P p m → P (p ++ [a]) (step m a)) :
    ∀ (l p : List α) (m : β), P p m → P (p ++ l) (l.foldl step m) := by
  intro l
  induction l with
  | nil => intro p m h; simpa using h
  | cons a t ih =>
      intro p m h
      have h2 := ih (p ++ [a]) (step m a) (hstep p m a h)
      simpa using h2

theorem recordQuery_totalQueries (s : RAGMetricsState) (t : ℚ) (ch er : Bool) :
    (recordQuery s t ch er).totalQueries = s.totalQueries + 1 := rfl

theorem recordQuery_avg_mul (s : RAGMetricsState) (t : ℚ) (ch er : Bool) :
    (recordQuery s t ch er).averageResponseTime
        * (((recordQuery s t ch er).totalQueries : ℚ))
      = s.averageResponseTime * (s.totalQueries : ℚ) + t := by
  have hne : ((s.totalQueries + 1 : Nat) : ℚ) ≠ 0 := by positivity
  simp only [recordQuery]
  rw [div_mul_cancel₀ _ hne]
  push_cast
  ring

theorem recordQuery_hit_mul (s : RAGMetricsState) (t : ℚ) (ch er : Bool) :
    (recordQuery s t ch er).cacheHitRate
        * (((recordQuery s t ch er).totalQueries : ℚ))
      = s.cacheHitRate * (s.totalQueries : ℚ) + (if ch then 1 else 0) := by
  have hne : ((s.totalQueries + 1 : Nat) : ℚ) ≠ 0 := by positivity
  simp only [recordQuery]
  cases ch with
  | false =>
      simp only [if_false, Bool.false_eq_true]
      rw [div_mul_cancel₀ _ hne]
      push_cast
      ring
  | true =>
      simp only [if_true]
      rw [div_mul_cancel₀ _ hne]
      push_cast
      ring

theorem recordQuery_error_mul (s : RAGMetricsState) (t : ℚ) (ch er : Bool) :
    (recordQuery s t ch er).errorRate
        * (((recordQuery s t ch er).totalQueries : ℚ))
      = s.errorRate * (s.totalQueries : ℚ) + (if er then 1 else 0) := by
  have hne : ((s.totalQueries + 1 : Nat) : ℚ) ≠ 0 := by positivity
  simp only [recordQuery]
  cases er with
  | false =>
      simp only [if_false, Bool.false_eq_true]
      rw [div_mul_cancel₀ _ hne]
      push_cast
      ring
  | true =>
      simp only [if_true]
      rw [div_mul_cancel₀ _ hne]
      push_cast
      ring

/-- Joint invariant of the metrics state after processing a list of calls. -/
def MetricsInv (p : List QueryRecord) (s : RAGMetricsState) : Prop :=
  s.totalQueries = p.length ∧
  s.averageResponseTime * (s.totalQueries : ℚ) = (p.map (fun r => r.responseTime)).sum ∧
  s.cacheHitRate * (s.totalQueries : ℚ) = ((p.filter (fun r => r.cacheHit)).length : ℚ) ∧
  s.errorRate * (s.totalQueries : ℚ) = ((p.filter (fun r => r.error)).length : ℚ)

theorem metricsInv_runQueries (l : List QueryRecord) : MetricsInv l (runQueries l) := by
  have base : MetricsInv [] initialMetrics := by
    refine ⟨rfl, by simp [initialMetrics], by simp [initialMetrics], by simp [initialMetrics]⟩
  have step : ∀ p m r, MetricsInv p m →
      MetricsInv (p ++ [r]) (recordQuery m r.responseTime r.cacheHit r.error) := by
    intro p m r ⟨h0, h1, h2, h3⟩
    refine ⟨?_, ?_, ?_, ?_⟩
    · rw [recordQuery_totalQueries, h0]; simp
    · rw [recordQuery_avg_mul, h1]; simp
    · rw [recordQuery_hit_mul, h2]
      rcases hr : r.cacheHit with _ | _ <;> simp [List.filter_append, hr]
    · rw [recordQuery_error_mul, h3]
      rcases hr : r.error with _ | _ <;> simp [List.filter_append, hr]
  have := foldl_inv MetricsInv
    (fun s r => recordQuery s r.responseTime r.cacheHit r.error) step l [] initialMetrics base
  simpa [runQueries] using this

/-- C9: starting from the freshly constructed metrics, after any sequence of
`recordQuery` calls the `averageResponseTime` equals the arithmetic mean of
the recorded response times, and one `recordQuery` call performs exactly the
incremental-average update `newMean = oldMean + (value - oldMean) / n`. -/
theorem averageResponseTime_is_mean (l : List QueryRecord) :
    (runQueries l).averageResponseTime
        = (l.map (fun r => r.responseTime)).sum / (l.length : ℚ) ∧
    ∀ (s : RAGMetricsState) (t : ℚ) (cacheHit error : Bool),
      (recordQuery s t cacheHit error).averageResponseTime
        = s.averageResponseTime
            + (t - s.averageResponseTime) / ((s.totalQueries : ℚ) + 1) := by
  constructor
  · obtain ⟨h0, h1, -, -⟩ := metricsInv_runQueries l
    rcases Nat.eq_zero_or_pos l.length with hz | hp
    · rw [List.eq_nil_of_length_eq_zero hz]
      simp [runQueries, initialMetrics]
    · have hne : ((l.length : ℚ)) ≠ 0 := by positivity
      rw [eq_div_iff hne, ← h0, h1]
  · intro s t ch er
    have hne : ((s.totalQueries : ℚ) + 1) ≠ 0 := by positivity
    simp only [recordQuery]
    field_simp
    ring

/-- C10: after any sequence of `recordQuery` calls, `totalQueries` counts the
calls, `totalQueries * cacheHitRate` counts the cache hits,
`totalQueries * errorRate` counts the errors, and both rates lie in `[0, 1]`. -/
theorem metrics_rates_invariant (l : List QueryRecord) :
    (runQueries l).totalQueries = l.length ∧
    ((runQueries l).totalQueries : ℚ) * (runQueries l).cacheHitRate
      = ((l.filter (fun r => r.cacheHit)).length : ℚ) ∧
    ((runQueries l).totalQueries : ℚ) * (runQueries l).errorRate
      = ((l.filter (fun r => r.error)).length : ℚ) ∧
    0 ≤ (runQueries l).cacheHitRate ∧ (runQueries l).cacheHitRate ≤ 1 ∧
    0 ≤ (runQueries l).errorRate ∧ (runQueries l).errorRate ≤ 1 := by
  obtain ⟨h0, -, h2, h3⟩ := metricsInv_runQueries l
  have hhits : ((l.filter (fun r => r.cacheHit)).length : ℚ) ≤ (l.length : ℚ) := by
    exact_mod_cast Nat.cast_le.mpr (List.length_filter_le _ l)
  have herrs : ((l.filter (fun r => r.error)).length : ℚ) ≤ (l.length : ℚ) := by
    exact_mod_cast Nat.cast_le.mpr (List.length_filter_le _ l)
  rcases Nat.eq_zero_or_pos l.length with hz | hp
  · rw [List.eq_nil_of_length_eq_zero hz] at h0 h2 h3 ⊢
    refine ⟨h0, by rw [mul_comm]; exact h2, by rw [mul_comm]; exact h3, ?_, ?_, ?_, ?_⟩ <;>
      simp [runQueries, initialMetrics]
  · have hq : (0 : ℚ) < (l.length : ℚ) := by exact_mod_cast hp
    have htq : ((runQueries l).totalQueries : ℚ) = (l.length : ℚ) := by
      exact_mod_cast congrArg (Nat.cast : Nat → ℚ) h0
    have hhr : (runQueries l).cacheHitRate
        = ((l.filter (fun r => r.cacheHit)).length : ℚ) / (l.length : ℚ) := by
      rw [eq_div_iff (ne_of_gt hq), ← htq, h2]
    have her : (runQueries l).errorRate
        = ((l.filter (fun r => r.error)).length : ℚ) / (l.length : ℚ) := by
      rw [eq_div_iff (ne_of_gt hq), ← htq, h3]
    refine ⟨h0, by rw [mul_comm]; exact h2, by rw [mul_comm]; exact h3, ?_, ?_, ?_, ?_⟩
    · rw [hhr]; positivity
    · rw [hhr, div_le_one hq]; exact hhits
    · rw [her]; positivity
    · rw [her, div_le_one hq]; exact herrs

/-! ## Claim C7: answer relevance is the Jaccard similarity -/

/-- C7 counterexample: on two term-empty texts the union of the token sets is
empty and the source divides `0 / 0`, returning JavaScript `NaN` (modelled
`none`) — not a fixed conventional value (`some 0` or `some 1`). -/
theorem calculateAnswerRelevance_empty_cex :
    calculateAnswerRelevance "" "" = none ∧
    (none : Option ℚ) ≠ some 0 ∧ (none : Option ℚ) ≠ some 1 := by
  refine ⟨rfl, by simp, by simp⟩

/-- C7 (amended): `answerRelevance` equals the Jaccard similarity of the two
token sets (intersection size over union size) whenever the union is
non-empty; when the union is empty the division is `0 / 0` and the result is
the `NaN` marker `none`, no conventional value is substituted. -/
theorem calculateAnswerRelevance_jaccard (question answer : String) :
    (((compromiseTerms question).toFinset ∪ (compromiseTerms answer).toFinset).card ≠ 0 →
      calculateAnswerRelevance question answer
        = some ((((compromiseTerms question).toFinset ∩ (compromiseTerms answer).toFinset).card : ℚ)
            / (((compromiseTerms question).toFinset ∪ (compromiseTerms answer).toFinset).card : ℚ))) ∧
    (((compromiseTerms question).toFinset ∪ (compromiseTerms answer).toFinset).card = 0 →
      calculateAnswerRelevance question answer = none) := by
  unfold calculateAnswerRelevance calculateSemanticSimilarity
  constructor <;> intro h <;> simp [h]

/-- C7 witness: the amended statement at concrete texts. -/
theorem calculateAnswerRelevance_jaccard_witness :
    (((compromiseTerms "the cat").toFinset ∪ (compromiseTerms "the dog").toFinset).card ≠ 0 →
      calculateAnswerRelevance "the cat" "the dog"
        = some ((((compromiseTerms "the cat").toFinset ∩ (compromiseTerms "the dog").toFinset).card : ℚ)
            / (((compromiseTerms "the cat").toFinset ∪ (compromiseTerms "the dog").toFinset).card : ℚ))) ∧
    (((compromiseTerms "the cat").toFinset ∪ (compromiseTerms "the dog").toFinset).card = 0 →
      calculateAnswerRelevance "the cat" "the dog" = none) :=
  calculateAnswerRelevance_jaccard "the cat" "the dog"

/-! ## Claim C8: context precision without a reference set -/

/-- C8 counterexample: `evaluateRAGResponse` invoked as in the `/query`
endpoint (no reference set, so `relevantChunks` defaults to `[]`) reports a
`contextPrecision` of exactly `0` for a non-empty retrieved set — the zero
(false) precision, not a neutral default. -/
theorem contextPrecision_defaults_zero_cex :
    (evaluateRAGResponse "What is in the document?" "The document discusses cats."
      [{ id := "doc_1_chunk_0", content := "cats are discussed", embedding := [],
         docId := "doc_1", chunkIndex := 0 }]).contextPrecision = 0 := by
  unfold evaluateRAGResponse calculateContextPrecision
  simp

/-- C8 (amended): when no reference set is supplied the evaluation reports a
`contextPrecision` of `0` for every question, answer and non-empty retrieved
set: each retrieved chunk is checked against an empty reference list, so no
chunk counts as relevant. -/
theorem contextPrecision_no_reference (question answer : String)
    (retrievedChunks : List Chunk) (_h : retrievedChunks ≠ []) :
    (evaluateRAGResponse question answer retrievedChunks).contextPrecision = 0 := by
  unfold evaluateRAGResponse calculateContextPrecision
  simp

/-- C8 witness: the amended statement at a concrete non-empty retrieved set. -/
theorem contextPrecision_no_reference_witness :
    (evaluateRAGResponse "What is this?" "An answer."
      [{ id := "d_c0", content := "some content", embedding := [],
         docId := "d", chunkIndex := 0 }]).contextPrecision = 0 :=
  contextPrecision_no_reference "What is this?" "An answer."
    [{ id := "d_c0", content := "some content", embedding := [],
       docId := "d", chunkIndex := 0 }] (by simp)

/-! ## Claim C1: the cache key -/

/-- C1 counterexample: two requests with the same question bytes (`'hi'`)
but different `maxResults` and `includeMetadata` receive the same cache key,
so distinct parameterizations do collide. -/
theorem requestCacheKey_params_collide_cex :
    requestCacheKey [104, 105] 5 false = requestCacheKey [104, 105] 20 true ∧
    (5 : Nat) ≠ 20 ∧ false ≠ true := by
  refine ⟨rfl, by decide, by decide⟩

/-- C1 (amended): the cache key is a pure deterministic function of the raw
question byte sequence alone — equal questions always give equal keys
whatever `maxResults` and `includeMetadata` are, and distinct questions give
distinct keys (base64 is injective) — but the two request parameters do not
enter the key. -/
theorem requestCacheKey_question_determined (q1 q2 : List Nat) (m1 m2 : Nat)
    (i1 i2 : Bool) (hb1 : ∀ b ∈ q1, b < 256) (hb2 : ∀ b ∈ q2, b < 256) :
    (q1 = q2 → requestCacheKey q1 m1 i1 = requestCacheKey q2 m2 i2) ∧
    (requestCacheKey q1 m1 i1 = requestCacheKey q2 m2 i2 → q1 = q2) := by
  constructor
  · intro h
    subst h
    rfl
  · intro h
    unfold requestCacheKey cacheKeyBytes at h
    exact base64Encode_injOn hb1 hb2 (List.append_cancel_left h)

/-- C1 witness: the amended statement at concrete byte sequences. -/
theorem requestCacheKey_question_determined_witness :
    (([104] : List Nat) = [105] →
      requestCacheKey [104] 5 false = requestCacheKey [105] 20 true) ∧
    (requestCacheKey [104] 5 false = requestCacheKey [105] 20 true →
      ([104] : List Nat) = [105]) :=
  requestCacheKey_question_determined [104] [105] 5 20 false true
    (by decide) (by decide)

/-! ## Claim C4: empty corpus short-circuits before answer generation -/

/-- C4: for every valid question that misses the cache, when the corpus of
chunks with embeddings is empty the endpoint returns the no-documents answer
with an empty sources list, and the answer-generation call is not made
(second component `false`).  The query-expansion call still runs before the
corpus check; only the answer-generation collaborator is skipped. -/
theorem processQuery_empty_corpus (mlCos : List ℝ → List ℝ → Option ℝ)
    (embed : String → List ℝ) (expansionResult : Option String)
    (genAnswer : String → Option String)
    (cacheGet : String → Option CachedQueryResult)
    (question : String) (includeMetadata : Bool) (maxResults : Nat)
    (hv : validRequest question maxResults)
    (hc : cacheGet (cacheKeyStr question) = none) :
    processQuery mlCos embed expansionResult genAnswer cacheGet question
        includeMetadata maxResults []
      = (QueryResponse.ok
          "No documents have been uploaded yet. Please upload a PDF first."
          [] (generateMultipleQueries expansionResult question 3) false, false) := by
  unfold processQuery
  rw [if_neg (not_not_intro hv), hc]
  rfl

/-- C4 witness: the empty-corpus guarantee at a concrete valid request with a
cold cache. -/
theorem processQuery_empty_corpus_witness :
    processQuery (fun _ _ => none) (fun _ => []) none (fun _ => none)
        (fun _ => none) "What is this?" false 5 []
      = (QueryResponse.ok
          "No documents have been uploaded yet. Please upload a PDF first."
          [] (generateMultipleQueries none "What is this?" 3) false, false) :=
  processQuery_empty_corpus (fun _ _ => none) (fun _ => []) none (fun _ => none)
    (fun _ => none) "What is this?" false 5 (by decide) rfl

/-! ## Claim C5: cosine similarity is bounded and degrades to 0 -/

theorem sumSq_nonneg (v : List ℝ) : 0 ≤ sumSq v := by
  apply List.sum_nonneg
  intro x hx
  obtain ⟨a, -, rfl⟩ := List.mem_map.mp hx
  exact mul_self_nonneg a

/-- Cauchy–Schwarz for the list dot product. -/
theorem dotProduct_sq_le (v1 v2 : List ℝ) :
    (dotProduct v1 v2) ^ 2 ≤ sumSq v1 * sumSq v2 := by
  induction v1 generalizing v2 with
  | nil => simp [dotProduct, sumSq]
  | cons a t1 ih =>
      cases v2 with
      | nil => simp [dotProduct, sumSq]
      | cons x t2 =>
          have hD := ih t2
          have hS1 := sumSq_nonneg t1
          have hS2 := sumSq_nonneg t2
          simp only [dotProduct, sumSq, List.zipWith_cons_cons, List.map_cons,
            List.sum_cons] at hD hS1 hS2 ⊢
          set D := (List.zipWith (fun a b => a * b) t1 t2).sum with hDdef
          set S1 := (t1.map (fun a => a * a)).sum with hS1def
          set S2 := (t2.map (fun a => a * a)).sum with hS2def
          rcases eq_or_lt_of_le hS1 with h0 | hpos
          · rw [← h0] at hD
            have hD0 : D = 0 :=
              pow_eq_zero_iff (by norm_num : (2 : ℕ) ≠ 0) |>.mp
                (le_antisymm (by nlinarith) (sq_nonneg D))
            rw [← h0, hD0]
            nlinarith [mul_nonneg (mul_self_nonneg a) hS2]
          · nlinarith [sq_nonneg (x * S1 - a * D),
              mul_nonneg (sq_nonneg a) (sub_nonneg.mpr hD),
              mul_nonneg hS1 (sub_nonneg.mpr hD), hpos]

theorem cosineSimilarity_some_some (mlCos : List ℝ → List ℝ → Option ℝ)
    (v1 v2 : List ℝ) :
    cosineSimilarity mlCos (some v1) (some v2)
      = if v1.length ≠ v2.length then 0
        else
          match mlCos v1 v2 with
          | some c => 1 - c
          | none =>
            if Real.sqrt (sumSq v1) = 0 ∨ Real.sqrt (sumSq v2) = 0 then 0
            else dotProduct v1 v2 / (Real.sqrt (sumSq v1) * Real.sqrt (sumSq v2)) := rfl

/-- With the `ml-distance` call throwing, equal-length vectors are scored by
the manual fallback. -/
theorem cosineSimilarity_fallback (mlCos : List ℝ → List ℝ → Option ℝ)
    (hthrow : ∀ a b, mlCos a b = none) (v1 v2 : List ℝ)
    (hlen : v1.length = v2.length) :
    cosineSimilarity mlCos (some v1) (some v2)
      = if Real.sqrt (sumSq v1) = 0 ∨ Real.sqrt (sumSq v2) = 0 then 0
        else dotProduct v1 v2 / (Real.sqrt (sumSq v1) * Real.sqrt (sumSq v2)) := by
  rw [cosineSimilarity_some_some, if_neg (not_not_intro hlen), hthrow]

/-- C5: `cosineSimilarity` always returns a value in `[-1, 1]` and returns
exactly `0` when either vector is absent, empty, or the lengths mismatch.
The function is total — no exception escapes; the hypothesis `hthrow`
records that the destructured `ml-distance` `cosine` import is not a
function, so the `try` block always falls through to the manual
computation. -/
theorem cosineSimilarity_spec (mlCos : List ℝ → List ℝ → Option ℝ)
    (hthrow : ∀ a b, mlCos a b = none) (vec1 vec2 : Option (List ℝ)) :
    (-1 ≤ cosineSimilarity mlCos vec1 vec2 ∧ cosineSimilarity mlCos vec1 vec2 ≤ 1) ∧
    ((vec1 = none ∨ vec2 = none ∨
        (∃ v1 v2, vec1 = some v1 ∧ vec2 = some v2 ∧ v1.length ≠ v2.length) ∨
        vec1 = some [] ∨ vec2 = some []) →
      cosineSimilarity mlCos vec1 vec2 = 0) := by
  cases vec1 with
  | none =>
      refine ⟨⟨by norm_num [cosineSimilarity], by norm_num [cosineSimilarity]⟩,
        fun _ => by norm_num [cosineSimilarity]⟩
  | some v1 =>
    cases vec2 with
    | none =>
        refine ⟨⟨by norm_num [cosineSimilarity], by norm_num [cosineSimilarity]⟩,
          fun _ => by norm_num [cosineSimilarity]⟩
    | some v2 =>
      by_cases hlen : v1.length = v2.length
      case neg =>
        have hval : cosineSimilarity mlCos (some v1) (some v2) = 0 := by
          rw [cosineSimilarity_some_some, if_pos hlen]
        rw [hval]
        exact ⟨⟨by norm_num, by norm_num⟩, fun _ => rfl⟩
      case pos =>
        rw [cosineSimilarity_fallback mlCos hthrow v1 v2 hlen]
        by_cases hm : Real.sqrt (sumSq v1) = 0 ∨ Real.sqrt (sumSq v2) = 0
        · rw [if_pos hm]
          exact ⟨⟨by norm_num, by norm_num⟩, fun _ => rfl⟩
        · rw [if_neg hm]
          push_neg at hm
          obtain ⟨hm1, hm2⟩ := hm
          have hp1 : 0 < Real.sqrt (sumSq v1) :=
            lt_of_le_of_ne (Real.sqrt_nonneg _) (Ne.symm hm1)
          have hp2 : 0 < Real.sqrt (sumSq v2) :=
            lt_of_le_of_ne (Real.sqrt_nonneg _) (Ne.symm hm2)
          have hp : 0 < Real.sqrt (sumSq v1) * Real.sqrt (sumSq v2) := mul_pos hp1 hp2
          have hsq : (dotProduct v1 v2) ^ 2
              ≤ (Real.sqrt (sumSq v1) * Real.sqrt (sumSq v2)) ^ 2 := by
            have h1 : Real.sqrt (sumSq v1) ^ 2 = sumSq v1 := Real.sq_sqrt (sumSq_nonneg v1)
            have h2 : Real.sqrt (sumSq v2) ^ 2 = sumSq v2 := Real.sq_sqrt (sumSq_nonneg v2)
            calc (dotProduct v1 v2) ^ 2 ≤ sumSq v1 * sumSq v2 := dotProduct_sq_le v1 v2
            _ = (Real.sqrt (sumSq v1) * Real.sqrt (sumSq v2)) ^ 2 := by
                rw [mul_pow, h1, h2]
          constructor
          · constructor
            · rw [le_div_iff₀ hp]
              nlinarith [sq_nonneg
                (dotProduct v1 v2 + Real.sqrt (sumSq v1) * Real.sqrt (sumSq v2))]
            · rw [div_le_one hp]
              nlinarith [sq_nonneg
                (dotProduct v1 v2 - Real.sqrt (sumSq v1) * Real.sqrt (sumSq v2))]
          · rintro (h | h | ⟨w1, w2, hw1, hw2, hww⟩ | h | h)
            · exact absurd h (by simp)
            · exact absurd h (by simp)
            · obtain rfl : v1 = w1 := by injection hw1
              obtain rfl : v2 = w2 := by injection hw2
              exact absurd hlen hww
            · obtain rfl : v1 = [] := by injection h
              exact absurd (by simp [sumSq] : Real.sqrt (sumSq ([] : List ℝ)) = 0) hm1
            · obtain rfl : v2 = [] := by injection h
              exact absurd (by simp [sumSq] : Real.sqrt (sumSq ([] : List ℝ)) = 0) hm2

/-- C5 witness: the guarantee at two concrete vectors, with the throwing
`ml-distance` oracle. -/
theorem cosineSimilarity_spec_witness :
    (-1 ≤ cosineSimilarity (fun _ _ => none) (some [1, 0]) (some [0, 1]) ∧
      cosineSimilarity (fun _ _ => none) (some [1, 0]) (some [0, 1]) ≤ 1) ∧
    ((some [(1 : ℝ), 0] = none ∨ some [(0 : ℝ), 1] = none ∨
        (∃ v1 v2, some [(1 : ℝ), 0] = some v1 ∧ some [(0 : ℝ), 1] = some v2 ∧
          v1.length ≠ v2.length) ∨
        some [(1 : ℝ), 0] = some ([] : List ℝ) ∨
        some [(0 : ℝ), 1] = some ([] : List ℝ)) →
      cosineSimilarity (fun _ _ => none) (some [1, 0]) (some [0, 1]) = 0) :=
  cosineSimilarity_spec (fun _ _ => none) (fun _ _ => rfl) (some [1, 0]) (some [0, 1])

/-! ## Claim C6: BM25 sign behaviour -/

/-- C6 counterexample: for query `'cat'`, document `'cat'` and corpus
`['cat']`, the only query term occurs in the document and in the (single)
corpus document, yet the BM25 score is `log(1/3) * 11/8 < 0`: the classic
negative-IDF case `df > N/2`. -/
theorem calculateBM25Score_negative_cex :
    calculateBM25Score "cat" "cat" ["cat"] < 0 := by
  unfold calculateBM25Score
  have h1 : wordTokenize (jsToLower "cat") = ["cat"] := by rfl
  rw [h1]
  simp only [List.foldl_cons, List.foldl_nil]
  unfold bm25TermStep
  have hdf : bm25DocFreq ["cat"] "cat" = 1 := by rfl
  rw [hdf]
  rw [if_pos (by norm_num)]
  have hfilter : (List.filter (fun t => t == "cat") ["cat"]).length = 1 := by rfl
  rw [hfilter]
  have hlen : (["cat"].map (fun d => ((d.length : ℕ) : ℝ))).sum = 3 := by
    have h3 : "cat".length = 3 := rfl
    norm_num [h3]
  rw [hlen]
  norm_num
  exact mul_neg_of_neg_of_pos (Real.log_neg (by norm_num) (by norm_num)) (by norm_num)

theorem foldl_step_ge (step : ℝ → String → ℝ) (l : List String) (init : ℝ)
    (h : ∀ s a, a ∈ l → s ≤ step s a) : init ≤ l.foldl step init := by
  induction l generalizing init with
  | nil => simp
  | cons a t ih =>
      refine le_trans (h init a (by simp)) (ih (step init a) ?_)
      intro s b hb
      exact h s b (by simp [hb])

/-- One BM25 term never decreases the score when the term, if present in the
document, occurs in at most half of the corpus documents. -/
theorem bm25TermStep_ge (docTokens : List String) (corpus : List String)
    (avgDocLength : ℝ) (havg : 0 ≤ avgDocLength) (s : ℝ) (term : String)
    (hterm : term ∈ docTokens → 2 * bm25DocFreq corpus term ≤ corpus.length) :
    s ≤ bm25TermStep docTokens corpus avgDocLength s term := by
  unfold bm25TermStep
  by_cases hdf : 0 < bm25DocFreq corpus term
  · rw [if_pos hdf]
    by_cases hin : term ∈ docTokens
    · have hN : 2 * bm25DocFreq corpus term ≤ corpus.length := hterm hin
      have hNR : 2 * (bm25DocFreq corpus term : ℝ) ≤ (corpus.length : ℝ) := by
        exact_mod_cast hN
      have hidf : 0 ≤ Real.log (((corpus.length : ℝ) - (bm25DocFreq corpus term : ℝ) + 0.5)
          / ((bm25DocFreq corpus term : ℝ) + 0.5)) := by
        apply Real.log_nonneg
        rw [le_div_iff₀ (by positivity)]
        nlinarith
      have hratio : 0 ≤ (docTokens.length : ℝ) / avgDocLength :=
        div_nonneg (by positivity) havg
      have htf : 0 ≤ ((docTokens.filter (fun t => t == term)).length : ℝ) * (1.2 + 1) /
          (((docTokens.filter (fun t => t == term)).length : ℝ)
            + 1.2 * (1 - 0.75 + 0.75 * ((docTokens.length : ℝ) / avgDocLength))) := by
        apply div_nonneg (by positivity)
        positivity
      exact le_add_of_nonneg_right (mul_nonneg hidf htf)
    · have hf : docTokens.filter (fun t => t == term) = [] := by
        apply List.filter_eq_nil_iff.mpr
        intro a ha hba
        exact hin ((eq_of_beq hba) ▸ ha)
      rw [hf]
      simp
  · rw [if_neg hdf]

/-- C6 (amended): a query term with zero document frequency contributes
exactly 0 to the BM25 score (the IDF is never evaluated, so no division by
zero), and the total score is non-negative whenever every query term that
occurs in the document occurs in at most half of the corpus documents
(`2 * df ≤ N`; the original claim's `df ≥ 1` is not sufficient, as the
counterexample shows). -/
theorem calculateBM25Score_spec (query document : String) (corpus : List String)
    (h : ∀ t ∈ wordTokenize (jsToLower query), t ∈ wordTokenize (jsToLower document) →
      2 * bm25DocFreq corpus t ≤ corpus.length) :
    0 ≤ calculateBM25Score query document corpus ∧
    ∀ (docTokens : List String) (avgDocLength score : ℝ) (term : String),
      bm25DocFreq corpus term = 0 →
      bm25TermStep docTokens corpus avgDocLength score term = score := by
  constructor
  · unfold calculateBM25Score
    apply foldl_step_ge
    intro s a ha
    apply bm25TermStep_ge
    · apply div_nonneg _ (by positivity)
      apply List.sum_nonneg
      intro x hx
      obtain ⟨d, -, rfl⟩ := List.mem_map.mp hx
      positivity
    · exact h a ha
  · intro docTokens avg score term hdf
    unfold bm25TermStep
    rw [if_neg (by omega)]

/-- C6 witness: the amended statement at a concrete query, document and
corpus where the document term occurs in exactly half of the two corpus
documents. -/
theorem calculateBM25Score_spec_witness :
    0 ≤ calculateBM25Score "cat" "cat" ["cat", "dog"] ∧
    ∀ (docTokens : List String) (avgDocLength score : ℝ) (term : String),
      bm25DocFreq ["cat", "dog"] term = 0 →
      bm25TermStep docTokens ["cat", "dog"] avgDocLength score term = score :=
  calculateBM25Score_spec "cat" "cat" ["cat", "dog"] (by decide)

/-! ## Claim C2: the ranked hybrid-retrieval list -/

/-- Invariant of the `uniqueResults` map while `hybridResults` is folded:
ids are unique, every stored candidate was seen, and every seen candidate is
dominated by the stored candidate with its id. -/
def DedupInv (p m : List ScoredCandidate) : Prop :=
  (m.map (fun c => c.chunk.id)).Nodup ∧
  (∀ c ∈ m, c ∈ p) ∧
  (∀ s ∈ p, ∃ c ∈ m, c.chunk.id = s.chunk.id ∧ s.hybridScore ≤ c.hybridScore)

theorem dedupeStep_inv (p m : List ScoredCandidate) (r : ScoredCandidate)
    (h : DedupInv p m) : DedupInv (p ++ [r]) (dedupeStep m r) := by
  obtain ⟨hnd, hmem, hmax⟩ := h
  cases hfind : m.find? (fun c => c.chunk.id == r.chunk.id) with
  | none =>
      have hstep : dedupeStep m r = m ++ [r] := by
        unfold dedupeStep
        rw [hfind]
      rw [hstep]
      have hnone : ∀ c ∈ m, c.chunk.id ≠ r.chunk.id := by
        intro c hc
        have := List.find?_eq_none.mp hfind c hc
        simpa using this
      refine ⟨?_, ?_, ?_⟩
      · rw [List.map_append]
        apply List.Nodup.append hnd (by simp)
        intro a ha hb
        simp only [List.map_cons, List.map_nil, List.mem_singleton] at hb
        obtain ⟨c, hc, rfl⟩ := List.mem_map.mp ha
        exact hnone c hc hb
      · intro c hc
        rcases List.mem_append.mp hc with hcm | hcr
        · exact List.mem_append.mpr (Or.inl (hmem c hcm))
        · exact List.mem_append.mpr (Or.inr hcr)
      · intro s hs
        rcases List.mem_append.mp hs with hsp | hsr
        · obtain ⟨c, hcm, hcid, hcle⟩ := hmax s hsp
          exact ⟨c, List.mem_append.mpr (Or.inl hcm), hcid, hcle⟩
        · rw [List.mem_singleton] at hsr
          subst hsr
          exact ⟨s, List.mem_append.mpr (Or.inr (by simp)), rfl, le_refl _⟩
  | some old =>
      have hold_mem : old ∈ m := List.mem_of_find?_eq_some hfind
      have hold_id : old.chunk.id = r.chunk.id := by
        have := List.find?_some hfind
        simpa using this
      have huniq : ∀ c1 ∈ m, ∀ c2 ∈ m, c1.chunk.id = c2.chunk.id → c1 = c2 := by
        intro c1 h1 c2 h2 h12
        exact List.inj_on_of_nodup_map hnd h1 h2 h12
      have hstep : dedupeStep m r
          = if old.hybridScore < r.hybridScore then
              m.map (fun c => if c.chunk.id == r.chunk.id then r else c)
            else m := by
        unfold dedupeStep
        rw [hfind]
      rw [hstep]
      by_cases hlt : old.hybridScore < r.hybridScore
      · rw [if_pos hlt]
        have hfc : ∀ c ∈ m,
            (if c.chunk.id == r.chunk.id then r else c).chunk.id = c.chunk.id := by
          intro c hc
          by_cases hcid : c.chunk.id = r.chunk.id
          · simp [hcid]
          · simp [hcid]
        have hids : ((m.map (fun c => if c.chunk.id == r.chunk.id then r else c)).map
            (fun c => c.chunk.id)) = m.map (fun c => c.chunk.id) := by
          rw [List.map_map]
          exact List.map_congr_left (fun c hc => hfc c hc)
        refine ⟨by rw [hids]; exact hnd, ?_, ?_⟩
        · intro c' hc'
          obtain ⟨c, hc, hfc'⟩ := List.mem_map.mp hc'
          by_cases hcid : c.chunk.id = r.chunk.id
          · rw [if_pos (by simpa using hcid)] at hfc'
            subst hfc'
            exact List.mem_append.mpr (Or.inr (by simp))
          · rw [if_neg (by simpa using hcid)] at hfc'
            subst hfc'
            exact List.mem_append.mpr (Or.inl (hmem c hc))
        · intro s hs
          rcases List.mem_append.mp hs with hsp | hsr
          · obtain ⟨c, hcm, hcid, hcle⟩ := hmax s hsp
            by_cases hcr : c.chunk.id = r.chunk.id
            · refine ⟨r, ?_, ?_, ?_⟩
              · exact List.mem_map.mpr ⟨c, hcm, by rw [if_pos (by simpa using hcr)]⟩
              · rw [← hold_id]
                have : c = old := huniq c hcm old hold_mem (hcr.trans hold_id.symm)
                rw [← this, hcid]
              · have : c = old := huniq c hcm old hold_mem (hcr.trans hold_id.symm)
                exact le_trans hcle (this ▸ le_of_lt hlt)
            · refine ⟨c, ?_, hcid, hcle⟩
              exact List.mem_map.mpr ⟨c, hcm, by rw [if_neg (by simpa using hcr)]⟩
          · rw [List.mem_singleton] at hsr
            subst hsr
            refine ⟨s, ?_, rfl, le_refl _⟩
            exact List.mem_map.mpr ⟨old, hold_mem, by rw [if_pos (by simpa using hold_id)]⟩
      · rw [if_neg hlt]
        refine ⟨hnd, ?_, ?_⟩
        · intro c hc
          exact List.mem_append.mpr (Or.inl (hmem c hc))
        · intro s hs
          rcases List.mem_append.mp hs with hsp | hsr
          · obtain ⟨c, hcm, hcid, hcle⟩ := hmax s hsp
            exact ⟨c, hcm, hcid, hcle⟩
          · rw [List.mem_singleton] at hsr
            subst hsr
            exact ⟨old, hold_mem, hold_id, not_lt.mp hlt⟩

theorem uniqueResults_inv (l : List ScoredCandidate) : DedupInv l (uniqueResults l) := by
  have base : DedupInv [] [] := ⟨by simp, by simp, by simp⟩
  have := foldl_inv DedupInv dedupeStep dedupeStep_inv l [] [] base
  simpa [uniqueResults] using this

/-- The ranking properties of `topResults`, for any candidate list. -/
theorem topResults_props (l : List ScoredCandidate) (maxResults : Nat) :
    (topResults l maxResults).length ≤ maxResults ∧
    ((topResults l maxResults).map (fun r => r.chunk.id)).Nodup ∧
    (topResults l maxResults).Sorted (fun a b => b.hybridScore ≤ a.hybridScore) ∧
    ∀ r ∈ topResults l maxResults, r ∈ l ∧
      ∀ s ∈ l, s.chunk.id = r.chunk.id → s.hybridScore ≤ r.hybridScore := by
  obtain ⟨hnd, hmem, hmax⟩ := uniqueResults_inv l
  have hperm : ((uniqueResults l).mergeSort hybridLe).Perm (uniqueResults l) :=
    List.mergeSort_perm _ _
  have hsorted : ((uniqueResults l).mergeSort hybridLe).Pairwise
      (fun a b => hybridLe a b = true) := by
    apply List.sorted_mergeSort
    · intro a b c hab hbc
      simp only [hybridLe, decide_eq_true_eq] at hab hbc ⊢
      exact le_trans hbc hab
    · intro a b
      simp only [hybridLe]
      rcases le_total b.hybridScore a.hybridScore with hh | hh
      · simp [hh]
      · simp [hh]
  have hnd2 : (((uniqueResults l).mergeSort hybridLe).map (fun r => r.chunk.id)).Nodup :=
    ((hperm.map _).nodup_iff).mpr hnd
  refine ⟨?_, ?_, ?_, ?_⟩
  · simp only [topResults, List.length_take]
    exact min_le_left _ _
  · exact ((List.take_sublist _ _).map _).nodup hnd2
  · have := List.Pairwise.sublist (List.take_sublist maxResults _) hsorted
    exact this.imp (fun hab => by simpa [hybridLe, decide_eq_true_eq] using hab)
  · intro r hr
    have hr1 : r ∈ (uniqueResults l).mergeSort hybridLe :=
      (List.take_sublist _ _).subset hr
    have hr2 : r ∈ uniqueResults l := hperm.subset hr1
    refine ⟨hmem r hr2, ?_⟩
    intro s hs hid
    obtain ⟨c, hcm, hcid, hcle⟩ := hmax s hs
    have hcr : c = r :=
      List.inj_on_of_nodup_map hnd hcm hr2 (hcid.trans hid)
    exact hcr ▸ hcle

/-- C2: for every corpus, every non-empty sequence of query variations and
every `maxResults`, the ranked result list of the hybrid retrieval step has
length at most `maxResults`, contains each chunk identity at most once, is
sorted non-increasingly by `hybridScore`, and each retained candidate is one
of the scored candidates achieving the maximum `hybridScore` observed for
its chunk identity across all variations. -/
theorem hybridRetrieval_ranking_spec (mlCos : List ℝ → List ℝ → Option ℝ)
    (embed : String → List ℝ) (allChunks : List Chunk)
    (queryVariations : List String) (maxResults : Nat)
    (_hv : queryVariations ≠ []) :
    (topResults (hybridResults mlCos embed queryVariations allChunks) maxResults).length
        ≤ maxResults ∧
    ((topResults (hybridResults mlCos embed queryVariations allChunks) maxResults).map
        (fun r => r.chunk.id)).Nodup ∧
    (topResults (hybridResults mlCos embed queryVariations allChunks) maxResults).Sorted
        (fun a b => b.hybridScore ≤ a.hybridScore) ∧
    ∀ r ∈ topResults (hybridResults mlCos embed queryVariations allChunks) maxResults,
      r ∈ hybridResults mlCos embed queryVariations allChunks ∧
      ∀ s ∈ hybridResults mlCos embed queryVariations allChunks,
        s.chunk.id = r.chunk.id → s.hybridScore ≤ r.hybridScore :=
  topResults_props (hybridResults mlCos embed queryVariations allChunks) maxResults

/-- The one-chunk corpus used by the C2 witness. -/
def witnessChunk : Chunk := ⟨"d_c0", "cats", [], "d", 0⟩

/-- C2 witness: the ranking guarantees at a concrete non-empty variation
list, a one-chunk corpus and `maxResults = 5`. -/
theorem hybridRetrieval_ranking_spec_witness :
    (topResults (hybridResults (fun _ _ => none) (fun _ => [])
        ["Tell me about pets"] [witnessChunk]) 5).length ≤ 5 ∧
    ((topResults (hybridResults (fun _ _ => none) (fun _ => [])
        ["Tell me about pets"] [witnessChunk]) 5).map (fun r => r.chunk.id)).Nodup ∧
    (topResults (hybridResults (fun _ _ => none) (fun _ => [])
        ["Tell me about pets"] [witnessChunk]) 5).Sorted
        (fun a b => b.hybridScore ≤ a.hybridScore) ∧
    ∀ r ∈ topResults (hybridResults (fun _ _ => none) (fun _ => [])
        ["Tell me about pets"] [witnessChunk]) 5,
      r ∈ hybridResults (fun _ _ => none) (fun _ => [])
        ["Tell me about pets"] [witnessChunk] ∧
      ∀ s ∈ hybridResults (fun _ _ => none) (fun _ => [])
        ["Tell me about pets"] [witnessChunk],
        s.chunk.id = r.chunk.id → s.hybridScore ≤ r.hybridScore :=
  hybridRetrieval_ranking_spec (fun _ _ => none) (fun _ => [])
    [witnessChunk] ["Tell me about pets"] 5 (by simp)
